import Mathlib

/-!
Verification of the `llm-compiler` workflow compiler and runtime.

This file gives a shallow embedding, in Lean 4, of the parts of the
repository's Go source that the specification claims C1..C10 speak about:

* the workflow data model and `Validate` (internal/workflow/validate.go),
* `LoadWorkflows` document filtering (internal/workflow/parser.go),
* the code generator's identifier scheme, wait-for resolution, wait-gate
  lowering and artifact epilogue (internal/generator `Generate`),
* the runtime helpers `SanitizeForShell`, `RenderTemplate`, `EvalCondition`,
* the local-inference client `LocalLlamaRuntime.Generate` and the worker
  server loop.

Pure Go string manipulation is translated function by function onto
`String` / `List Char`.  Effectful boundaries (file and standard-stream
I/O, YAML decoding, the native llama backend, goroutine scheduling and
real time) are abstracted in the standard way for a shallow embedding:
I/O turns into explicit inputs/outputs, a blocking wait turns into an
outcome indexed by whether (and when) a signal is ever published, and
the worker wire turns into a list of decoded frames.  Each definition
carries a comment naming the Go source it was translated from.

The file is organised as definitions first, then all lemmas and theorems.
-/

/-! ## Workflow data model (internal/workflow/workflow.go)

`WorkflowStep` mirrors the Go struct field by field; the step `Type` is a
plain string in the source (`type StepType string`), so it is a `String`
here as well, with the constants `"shell"`, `"llm"`, `"local_llm"`.
-/

structure WorkflowStep where
  name        : String
  type        : String
  command     : String
  prompt      : String
  model       : String
  maxTokens   : Int
  output      : String
  ifExpr      : String
  waitFor     : String
  waitTimeout : Int
  deriving DecidableEq

structure Workflow where
  name  : String
  steps : List WorkflowStep
  deriving DecidableEq

/-- A convenient all-empty step: every field is the Go zero value. -/
def WorkflowStep.zero : WorkflowStep :=
  ⟨"", "", "", "", "", 0, "", "", "", 0⟩

/-! ## Validate (internal/workflow/validate.go, lines 10-42)

The Go loop `for i, step := range wf.Steps` checks each step in order and
returns the first error.  The `switch step.Type` has four arms:

* `case StepShell`: requires a non-empty command;
* `case StepLLM`: an **empty body** (Go cases do not fall through, so an
  `"llm"` step passes with no further checks);
* `case StepLocalLLM`: requires a non-empty prompt and a non-empty model
  (error texts say "llm step ... missing prompt/model");
* `default`: `unknown step type: <value>`.
-/

def validateSteps : Nat → List WorkflowStep → Except String Unit
  | _, [] => .ok ()
  | i, st :: rest =>
    if st.name = "" then
      .error ("step " ++ toString (i + 1) ++ " is missing a name")
    else if st.type = "shell" then
      if st.command = "" then .error ("shell step " ++ st.name ++ " missing command")
      else validateSteps (i + 1) rest
    else if st.type = "llm" then
      validateSteps (i + 1) rest
    else if st.type = "local_llm" then
      if st.prompt = "" then .error ("llm step " ++ st.name ++ " missing prompt")
      else if st.model = "" then .error ("llm step " ++ st.name ++ " missing model")
      else validateSteps (i + 1) rest
    else
      .error ("unknown step type: " ++ st.type)

/-- `Workflow.Validate` from internal/workflow/validate.go. -/
def Validate (wf : Workflow) : Except String Unit :=
  if wf.name = "" then .error "workflow name is required"
  else if wf.steps = [] then .error "workflow must have at least one step"
  else validateSteps 0 wf.steps

/-! ## LoadWorkflows (internal/workflow/parser.go, lines 15-42)

The translation abstracts the file read and the YAML decoding: the input
is the stream of successfully decoded documents (one `Workflow` value per
document, in document order), exactly what the Go decode loop feeds into
the skip/append logic.  Read and decode errors return early in Go and are
outside the filtering logic modelled here.
-/

/-- The `wf.Name == "" && len(wf.Steps) == 0` test of the Go decode loop. -/
def isEmptyDoc (d : Workflow) : Bool := d.name == "" && decide (d.steps = [])

def collectDocs : List Workflow → List Workflow
  | [] => []
  | d :: t => if isEmptyDoc d then collectDocs t else d :: collectDocs t

/-- `LoadWorkflows` from internal/workflow/parser.go: skip the completely
empty documents; if nothing remains, fail with `no workflows found`. -/
def LoadWorkflows (docs : List Workflow) : Except String (List Workflow) :=
  let wfs := collectDocs docs
  if wfs = [] then .error "no workflows found" else .ok wfs

/-! ## Generator identifier scheme (internal/generator, part_007)

`prefixedWorkflowName` and `prefixedStepKey` are the `fmt.Sprintf` helpers
of lines 26-38 (`wfIdx`/`stepIdx` are the 0-based Go loop indices).  The
`stepKeyMap` of `Generate` (lines 61-72) is a Go map filled by the nested
workflow/step loop; it is modelled as a left fold of pointwise updates
(later assignments override earlier ones, exactly like Go map assignment)
over the entry list produced in loop order.
-/

def prefixedWorkflowName (wfIdx : Nat) (name : String) : String :=
  toString (wfIdx + 1) ++ "_" ++ name

def prefixedStepKey (wfKey : String) (wfIdx stepIdx totalSteps : Nat) (stepName : String) : String :=
  wfKey ++ "." ++ toString (wfIdx + 1) ++ "_" ++ toString (stepIdx + 1) ++ "/"
    ++ toString totalSteps ++ "_" ++ stepName

/-- Entries `(originalKey, prefixedKey)` contributed by one workflow's inner
loop, starting at step index `j`. -/
def stepEntriesWf (wfIdx : Nat) (wfName : String) (total : Nat) :
    Nat → List WorkflowStep → List (String × String)
  | _, [] => []
  | j, st :: rest =>
    (wfName ++ "." ++ st.name,
      prefixedStepKey (prefixedWorkflowName wfIdx wfName) wfIdx j total st.name)
      :: stepEntriesWf wfIdx wfName total (j + 1) rest

def stepEntriesFrom : Nat → List Workflow → List (String × String)
  | _, [] => []
  | i, wf :: rest =>
    stepEntriesWf i wf.name wf.steps.length 0 wf.steps ++ stepEntriesFrom (i + 1) rest

/-- All `(originalKey, prefixedKey)` pairs in the order the nested loop of
`Generate` (lines 64-72) visits them. -/
def stepEntries (wfs : List Workflow) : List (String × String) :=
  stepEntriesFrom 0 wfs

/-- One Go map assignment `m[k] = v`. -/
def goMapUpdate (m : String → Option String) (k v : String) : String → Option String :=
  fun x => if x = k then some v else m x

/-- The finished `stepKeyMap` of `Generate`. -/
def buildStepKeyMap (wfs : List Workflow) : String → Option String :=
  (stepEntries wfs).foldl (fun m e => goMapUpdate m e.1 e.2) (fun _ => none)

/-- Helper for reasoning about the fold: the value of the *last* entry for a
key, scanning from the left (later entries override). -/
def lastAssoc : List (String × String) → String → Option String
  | [], _ => none
  | e :: t, k =>
    match lastAssoc t k with
    | some v => some v
    | none => if k = e.1 then some e.2 else none

/-- Wait-for resolution of `Generate` (lines 273-277): look the source-form
key up in `stepKeyMap`; an unresolved reference passes through unchanged. -/
def resolveWaitFor (m : String → Option String) (w : String) : String :=
  (m w).getD w

/-! ## Wait-gate lowering (part_007 `Generate`, lines 272-298)

For a step with a non-empty `wait_for`, `Generate` emits either a `select`
with a `time.After(waitTimeout * time.Second)` arm (when `WaitTimeout > 0`)
or a plain blocking channel receive.  `runWaitGate` is the semantics of the
emitted gate.  Real time is abstracted by the parameter `publishes`: `none`
when no signal is ever published on the resolved key (for the timed branch:
none within the timeout window), `some (t, msg)` when `msg` is published
`t` seconds in (the race at the exact timeout instant is abstracted by the
strict comparison `t < timeout`).
-/

structure SignalMsg where
  val : String
  err : String
  deriving DecidableEq

structure WaitGate where
  resolvedKey : String
  originalKey : String
  timeoutSec  : Int
  deriving DecidableEq

inductive WaitOutcome where
  /-- the gate stored `msg.Val` under the original source key and fell
  through to the step body -/
  | proceed (key val : String)
  /-- `log.Fatalf("producer %s failed: %s", ...)` -/
  | fatalProducerFailed
  /-- `log.Fatalf("wait_for timed out waiting for ...")` -/
  | fatalTimeout
  /-- the blocking receive never returns -/
  | blocksForever
  deriving DecidableEq

/-- The wait gate `Generate` emits for a step (lines 272-281): nothing when
`wait_for` is empty; otherwise the resolved key, the original key (used to
store the received value) and the step's `wait_timeout`. -/
def emitWaitGate (stepKeyMap : String → Option String) (st : WorkflowStep) : Option WaitGate :=
  if st.waitFor = "" then none
  else some ⟨resolveWaitFor stepKeyMap st.waitFor, st.waitFor, st.waitTimeout⟩

/-- Semantics of the emitted gate code (lines 282-298). -/
def runWaitGate (g : WaitGate) (publishes : Option (Nat × SignalMsg)) : WaitOutcome :=
  if g.timeoutSec > 0 then
    match publishes with
    | some (t, m) =>
      if (t : Int) < g.timeoutSec then
        if m.err ≠ "" then .fatalProducerFailed else .proceed g.originalKey m.val
      else .fatalTimeout
    | none => .fatalTimeout
  else
    match publishes with
    | some (_, m) =>
      if m.err ≠ "" then .fatalProducerFailed else .proceed g.originalKey m.val
    | none => .blocksForever

/-! ## Artifact epilogue (part_007 `Generate`, lines 381-399)

After `wg.Wait()` the generated program serialises `contexts` and the
signal side table and writes them next to the executable.  The emitted
statements are reproduced verbatim in `epilogueFragments` (one element per
`sb.WriteString` argument).  `runEmitEpilogue` is the semantics of that
fixed tail: the `os.WriteFile` error is bound to `_` — recorded here as
`discardedWriteError` — nothing is written to standard error, the
completion marker is printed, and the exit code stays 0.
-/

/-- `strconv`-style quoting as used via `fmt.Sprintf("%q", ...)`; faithful
for output names that need no escaping (the generator builds them as
`opts.OutputName + "_run.json"`). -/
def goQuote (s : String) : String := "\"" ++ s ++ "\""

def writeFileLine : String := "    _ = os.WriteFile(outPath, b, 0644)\n"

def completionMarkerLine : String := "    fmt.Println(\"\\n✅ Workflows completed\")\n"

def epilogueFragments (jsonOutputName : String) : List String :=
  [ "    // Dump contexts and channel values as JSON for debugging\n"
  , "    dump := map[string]interface\x7b\x7d\x7b\x7d\n"
  , "    dump[\"contexts\"] = contexts\n"
  , "    chans := make(map[string]map[string]interface\x7b\x7d)\n"
  , "    signalsMu.Lock()\n"
  , "    for k, msg := range signalValues \x7b\n"
  , "        m := map[string]interface\x7b\x7d\x7b\x7d\n"
  , "        m[\"val\"] = msg.Val\n"
  , "        if msg.Err == \"\" \x7b m[\"err\"] = nil \x7d else \x7b m[\"err\"] = msg.Err \x7d\n"
  , "        chans[k] = m\n"
  , "    \x7d\n"
  , "    signalsMu.Unlock()\n"
  , "    dump[\"channels\"] = chans\n"
  , "    b, _ := json.MarshalIndent(dump, \"\", \"  \")\n"
  , "    exe, _ := os.Executable()\n"
  , "    exeDir := filepath.Dir(exe)\n"
  , "    outPath := filepath.Join(exeDir, " ++ goQuote jsonOutputName ++ ")\n"
  , writeFileLine
  , completionMarkerLine
  ]

structure EmitOutcome where
  /-- the error value of `os.WriteFile`, bound to `_` by the emitted code -/
  discardedWriteError : Option String
  stderrLines : List String
  stdoutLines : List String
  exitCode    : Nat
  deriving DecidableEq

/-- Semantics of the emitted epilogue, parametrised by the outcome of the
`os.WriteFile` call (`none` = success, `some e` = failure with error `e`).
The emitted statement is `_ = os.WriteFile(outPath, b, 0644)`: the error is
discarded, nothing reaches standard error, and `fmt.Println` still prints
the completion marker. -/
def runEmitEpilogue (writeErr : Option String) : EmitOutcome :=
  { discardedWriteError := writeErr
  , stderrLines := []
  , stdoutLines := ["\n✅ Workflows completed"]
  , exitCode := 0 }

/-! ## Local inference client (part_014, lines 29-119)

`resolveModelSpec` is the path-resolution block of `Generate` (lines
73-91).  `LoadModel` (lines 49-66) caches model handles keyed by absolute
path; `filepath.Abs` is abstracted as the parameter `absPath`, the native
`llama.LoadModel` as `loader`, and `model.Predict` as `predict` (its fixed
`PredictOptions` — TopK 40, TopP 0.9, Temp 0.8 — are backend configuration
carried inside `predict`).  A configured worker client (subprocess mode)
is the parameter `worker`; the request frames handed to
`worker.sendRequest` are recorded in `workerRequests`.
-/

/-- `strings.HasPrefix` (first argument is the pattern). -/
def hasPre : List Char → List Char → Bool
  | [], _ => true
  | _ :: _, [] => false
  | p :: ps, c :: cs => p = c && hasPre ps cs

/-- `strings.HasSuffix` (first argument is the pattern). -/
def hasSuf (p l : List Char) : Bool := hasPre p.reverse l.reverse

def resolveModelSpec (modelSpec : String) : String :=
  if hasPre "file:".data modelSpec.data then ⟨modelSpec.data.drop 5⟩
  else if hasPre "/".data modelSpec.data || hasPre "./".data modelSpec.data
      || hasPre "../".data modelSpec.data then
    (if hasSuf ".gguf".data modelSpec.data then modelSpec else modelSpec ++ ".gguf")
  else if hasSuf ".gguf".data modelSpec.data then "./models/" ++ modelSpec
  else "./models/" ++ modelSpec ++ ".gguf"

/-- `LocalLlamaRuntime.LoadModel` (part_014 lines 49-66): return the cached
handle for the absolute path, otherwise load and cache it. -/
def loadModel {M : Type} (absPath : String → String) (loader : String → Except String M)
    (cache : List (String × M)) (filePath : String) :
    Except String M × List (String × M) :=
  let a := absPath filePath
  match cache.lookup a with
  | some m => (.ok m, cache)
  | none =>
    match loader a with
    | .error e => (.error ("failed to load model " ++ a ++ ": " ++ e), cache)
    | .ok m => (.ok m, cache ++ [(a, m)])

structure GenOutcome (M : Type) where
  result : Except String String
  cache  : List (String × M)
  /-- `(modelPath, prompt, maxTokens)` frames sent to the worker client -/
  workerRequests : List (String × String × Int)

/-- `LocalLlamaRuntime.Generate` (part_014 lines 71-119): resolve the spec,
load/cache the model in the calling process, then either delegate to the
worker client or predict in-process (defaulting `maxTokens` to 256 when
nonpositive). -/
def LocalLlamaGenerate {M : Type}
    (worker : Option (String → String → Int → Except String String))
    (absPath : String → String) (loader : String → Except String M)
    (predict : M → String → Int → Except String String)
    (cache : List (String × M)) (prompt modelSpec : String) (maxTokens : Int) :
    GenOutcome M :=
  let modelPath := resolveModelSpec modelSpec
  match loadModel absPath loader cache modelPath with
  | (.error e, c) => ⟨.error e, c, []⟩
  | (.ok m, c) =>
    match worker with
    | some sendRequest =>
      ⟨sendRequest modelPath prompt maxTokens, c, [(modelPath, prompt, maxTokens)]⟩
    | none =>
      let mt : Int := if maxTokens > 0 then maxTokens else 256
      ⟨predict m prompt mt, c, []⟩

/-! ## Worker server loop (part_012 `Server.Run`, lines 26-67)

The scanner/JSON layer is abstracted to the list of decoded line results:
a `WireLine.ok` is a line that unmarshalled into a request, a
`WireLine.bad pid msg` is a line on which `json.Unmarshal` failed with
message `msg` after decoding (at most) the id `pid` into the zero-valued
request.  The loop handles every line in order and ends exactly when the
input list — standard input — is exhausted.
-/

structure WRequest where
  id        : String
  modelSpec : String
  prompt    : String
  maxTokens : Int
  deriving DecidableEq

structure WResponse where
  id  : String
  val : String
  err : String
  deriving DecidableEq

inductive WireLine where
  | ok (req : WRequest)
  | bad (decodedId errMsg : String)
  deriving DecidableEq

/-- One iteration of the `for scanner.Scan()` body: a decode failure answers
`Response{ID: req.ID, Err: "invalid request: <err>"}` and continues; a
request is served through the handler (`s.handler.Generate`), keeping `val`
and filling `err` only when the handler fails. -/
def serveLine (handler : String → String → Int → String × Option String) :
    WireLine → WResponse
  | .ok req =>
    let r := handler req.prompt req.modelSpec req.maxTokens
    match r.2 with
    | none => ⟨req.id, r.1, ""⟩
    | some e => ⟨req.id, r.1, e⟩
  | .bad pid msg => ⟨pid, "", "invalid request: " ++ msg⟩

def serverRun (handler : String → String → Int → String × Option String) :
    List WireLine → List WResponse
  | [] => []
  | l :: rest => serveLine handler l :: serverRun handler rest

/-! ## SanitizeForShell (part_015, lines 90-103)

The pipeline is: remove NULs (`strings.ReplaceAll`), collapse every run of
regexp `\s+` to a single space (`regexp.MustCompile(`\s+`)`; RE2's `\s` is
exactly `[\t\n\f\r ]`), `strings.TrimSpace` (Unicode white space), then
escape every `"` as `\"`.
-/

/-- RE2 `\s`: tab, newline, form feed, carriage return, space. -/
def isRe2Space (c : Char) : Bool :=
  c = '\t' || c = '\n' || c = '\x0c' || c = '\r' || c = ' '

/-- `unicode.IsSpace` as used by `strings.TrimSpace`: the Unicode
White_Space code points. -/
def isGoSpace (c : Char) : Bool :=
  c = '\t' || c = '\n' || c = '\x0b' || c = '\x0c' || c = '\r' || c = ' '
    || c.val = 0x85 || c.val = 0xA0 || c.val = 0x1680
    || (0x2000 ≤ c.val && c.val ≤ 0x200A)
    || c.val = 0x2028 || c.val = 0x2029 || c.val = 0x202F
    || c.val = 0x205F || c.val = 0x3000

/-- `strings.ReplaceAll(s, "\x00", "")`. -/
def removeNuls (l : List Char) : List Char := l.filter (fun c => c ≠ '\x00')

/-- State machine for the `\s+` → `" "` replacement; the flag records
whether the previous character was part of a white-space run already
replaced. -/
def collapseGo : Bool → List Char → List Char
  | _, [] => []
  | prevWs, c :: rest =>
    if isRe2Space c then
      if prevWs then collapseGo true rest else ' ' :: collapseGo true rest
    else c :: collapseGo false rest

def collapseWs (l : List Char) : List Char := collapseGo false l

def dropTrailing (p : Char → Bool) (l : List Char) : List Char :=
  (l.reverse.dropWhile p).reverse

/-- `strings.TrimSpace`. -/
def listTrimSpace (l : List Char) : List Char :=
  dropTrailing isGoSpace (l.dropWhile isGoSpace)

/-- `strings.ReplaceAll(s, `"`, `\"`)`. -/
def escapeQuotes : List Char → List Char
  | [] => []
  | c :: rest => if c = '\"' then '\\' :: '\"' :: escapeQuotes rest else c :: escapeQuotes rest

/-- `SanitizeForShell` from part_015 lines 90-103. -/
def SanitizeForShell (s : String) : String :=
  if s = "" then s
  else ⟨escapeQuotes (listTrimSpace (collapseWs (removeNuls s.data)))⟩

/-- Every double quote is immediately preceded by a backslash ("no
unescaped double quote"): a quote at the head, or any quote whose
predecessor is not a backslash, fails the check. -/
def quotesEscaped : List Char → Bool
  | [] => true
  | [c] => !(c = '\"')
  | a :: b :: t =>
    if a = '\"' then false
    else if a = '\\' && b = '\"' then quotesEscaped t
    else quotesEscaped (b :: t)

/-- No two adjacent characters are both RE2 white space (the shape left by
the `\s+` → `" "` replacement). -/
def noTwoWs : List Char → Bool
  | [] => true
  | [_] => true
  | a :: b :: t => !(isRe2Space a && isRe2Space b) && noTwoWs (b :: t)

/-! ## RenderTemplate (part_018, lines 39-53)

The Go code rewrites each regexp match of ``{{\s*([a-zA-Z0-9_.]+)\s*}}``
(leftmost, non-overlapping) into a `text/template` `index` action and then
parses and executes the template against the variable map; `index` on a
`map[string]string` yields the zero value `""` for a missing key.

`renderList` is the composition of both stages on the fragment the rewrite
produces: literal text (a lone `{` is literal text for the template lexer,
exactly as in Go) interleaved with `{{ ws key ws }}` substitutions, each
replaced by the map's value (default `""`).  A `{{` that does not open a
well-formed substitution is *outside this fragment*: the rewrite leaves it
in place and `template.Parse` sees an action this model does not cover, so
the model conservatively returns an error there (for inputs such as
`"{{x}} {{"` or `"a{{{x}}"` the real code errors as well, which is what the
theorems below use; richer actions like `{{/* comment */}}` that Go would
accept are never touched by the theorems).
-/

/-- The regexp character class `[a-zA-Z0-9_.]`. -/
def isKeyChar (c : Char) : Bool := c.isAlpha || c.isDigit || c = '_' || c = '.'

/-- Skip RE2 `\s*`. -/
def skipWs : List Char → List Char
  | [] => []
  | c :: rest => if isRe2Space c then skipWs rest else c :: rest

/-- Span of `[a-zA-Z0-9_.]+` (greedy, possibly empty). -/
def takeKey : List Char → List Char × List Char
  | [] => ([], [])
  | c :: rest =>
    if isKeyChar c then (c :: (takeKey rest).1, (takeKey rest).2)
    else ([], c :: rest)

/-- After an opening `{{`: match `\s* key \s* }}`; returns the key and the
input remaining after the closing braces. -/
def tryMatch (l : List Char) : Option (List Char × List Char) :=
  if (takeKey (skipWs l)).1 = [] then none
  else
    match skipWs (takeKey (skipWs l)).2 with
    | '\x7d' :: '\x7d' :: r => some ((takeKey (skipWs l)).1, r)
    | _ => none

def renderList (vars : String → Option String) (l : List Char) : Except String (List Char) :=
  match l with
  | [] => .ok []
  | '\x7b' :: '\x7b' :: rest =>
    match h : tryMatch rest with
    | some (k, r) =>
      match renderList vars r with
      | .ok out => .ok (((vars ⟨k⟩).getD "").data ++ out)
      | .error e => .error e
    | none => .error "unsupported template action"
  | c :: rest =>
    match renderList vars rest with
    | .ok out => .ok (c :: out)
    | .error e => .error e
termination_by l.length
decreasing_by
  · have hskip : ∀ l : List Char, (skipWs l).length ≤ l.length := by
      intro l
      induction l with
      | nil => simp [skipWs]
      | cons c t ih =>
        rw [skipWs]
        split
        · exact Nat.le_trans ih (Nat.le_succ _)
        · exact Nat.le_refl _
    have htake : ∀ l : List Char, (takeKey l).2.length ≤ l.length := by
      intro l
      induction l with
      | nil => simp [takeKey]
      | cons c t ih =>
        rw [takeKey]
        split
        · exact Nat.le_trans ih (Nat.le_succ _)
        · exact Nat.le_refl _
    rw [tryMatch] at h
    split at h
    · exact absurd h (by simp)
    · split at h
      · rename_i r' heq
        injection h with h'
        injection h' with h1 h2
        subst h2
        have e1 : (skipWs (takeKey (skipWs rest)).2).length = r'.length + 2 := by
          rw [heq]; simp
        have e2 := hskip (takeKey (skipWs rest)).2
        have e3 := htake (skipWs rest)
        have e4 := hskip rest
        simp only [List.length_cons]
        omega
      · exact absurd h (by simp)
  · simp

/-- `RenderTemplate` from part_018 lines 41-53 (variable map as an
association list; Go map keys are unique, lookup is `List.lookup`). -/
def RenderTemplate (input : String) (vars : List (String × String)) : Except String String :=
  match renderList (fun k => vars.lookup k) input.data with
  | .ok l => .ok ⟨l⟩
  | .error e => .error e

/-- A template segment: literal text, then `{{ws1 key ws2}}`. -/
structure Seg where
  lit : String
  ws1 : String
  key : String
  ws2 : String

/-- `lit₁{{ws key ws}}lit₂{{…}}…last`. -/
def assembleTemplate : List Seg → String → String
  | [], last => last
  | g :: rest, last =>
    g.lit ++ "\x7b\x7b" ++ g.ws1 ++ g.key ++ g.ws2 ++ "\x7d\x7d" ++ assembleTemplate rest last

/-- The same text with every substitution replaced by the map's value
(missing keys render as `""`). -/
def assembleRendered (vars : String → Option String) : List Seg → String → String
  | [], last => last
  | g :: rest, last => g.lit ++ (vars g.key).getD "" ++ assembleRendered vars rest last

/-- Literal text of the modelled fragment: no `{` character. -/
def goodLit (s : String) : Bool := s.data.all (fun c => c ≠ '\x7b')

def goodWs (s : String) : Bool := s.data.all isRe2Space

def goodKey (s : String) : Bool := decide (s.data ≠ []) && s.data.all isKeyChar

def segOk (g : Seg) : Bool := goodLit g.lit && goodWs g.ws1 && goodKey g.key && goodWs g.ws2

/-! ## EvalCondition (part_019, lines 9-33)

`evalCondition` returns the boolean result together with the warning line
printed on standard out (`none` when nothing is printed).  The variable
context parameter `ctx interface{ Get(string) string }` is the generated
program's `Context` — a Go map read returning the zero value `""` for a
missing key — modelled as an association-list lookup with default `""`.
Byte-level slicing `left[2 : len(left)-2]` coincides with dropping two
characters on each side because both delimiters are ASCII.
-/

def isQuoteChar (c : Char) : Bool := c = '\"' || c = '\''

/-- `strings.SplitN(cond, "==", 2)`: split at the first occurrence of
`==`; `none` when `cond` does not contain `==`. -/
def splitEq : List Char → Option (List Char × List Char)
  | [] => none
  | c :: rest =>
    if c = '=' ∧ rest.head? = some '=' then some ([], rest.tail)
    else (splitEq rest).map (fun p => (c :: p.1, p.2))

/-- `strings.Trim(right, `"'`)`: strip *all* leading and trailing quote
characters (single or double). -/
def trimQuotes (l : List Char) : List Char :=
  dropTrailing isQuoteChar (l.dropWhile isQuoteChar)

def startsWith2 (a b : Char) : List Char → Bool
  | x :: y :: _ => x = a && y = b
  | _ => false

def endsWith2 (a b : Char) (l : List Char) : Bool := startsWith2 b a l.reverse

def unsupportedWarning (condition : String) : String :=
  "⚠️ Unsupported condition: " ++ condition ++ "\n"

/-- `EvalCondition` from part_019 lines 9-33. -/
def evalCondition (vars : List (String × String)) (condition : String) : Bool × Option String :=
  let cond := listTrimSpace condition.data
  match splitEq cond with
  | some (lraw, rraw) =>
    let left := listTrimSpace lraw
    let right := listTrimSpace rraw
    if startsWith2 '\x7b' '\x7b' left && endsWith2 '\x7d' '\x7d' left then
      let varName : List Char := listTrimSpace ((left.drop 2).dropLast.dropLast)
      let leftVal : String := (vars.lookup (⟨varName⟩ : String)).getD ""
      let rightVal := trimQuotes right
      (decide (leftVal.data = rightVal), none)
    else (false, some (unsupportedWarning condition))
  | none => (false, some (unsupportedWarning condition))

/-- A condition of the supported shape
`ws0 {{name}} ws2 == ws3 <q>lit<q> ws4` (`q` a single or double quote),
written so that the part between the outer white space is a
`head :: (middle ++ [last])` context for the trimming lemmas. -/
def condForm (ws0 : List Char) (name : String) (ws2 ws3 : List Char) (q : Char)
    (lit : String) (ws4 : List Char) : String :=
  ⟨ws0 ++ ('\x7b' :: (('\x7b' :: name.data ++ ['\x7d', '\x7d'] ++ ws2
      ++ '=' :: '=' :: ws3 ++ q :: lit.data) ++ [q])) ++ ws4⟩

/-! ## Witness fixtures -/

def stepNamed (n : String) : WorkflowStep := { WorkflowStep.zero with name := n }

def wfsC3 : List Workflow :=
  [⟨"alpha", [stepNamed "one", stepNamed "two"]⟩, ⟨"beta", [stepNamed "go"]⟩]

/-! ## Lemmas and theorems -/

lemma collectDocs_eq_filter (docs : List Workflow) :
    collectDocs docs = docs.filter (fun d => !isEmptyDoc d) := by
  induction docs with
  | nil => rfl
  | cons d t ih =>
    rw [collectDocs, List.filter_cons]
    cases h : isEmptyDoc d with
    | true => simp [h, ih]
    | false => simp [h, ih]

/-- C6: `LoadWorkflows` skips exactly the documents with empty name and empty
step list, keeps the remaining documents in document order (one workflow per
document), and errors out — returning no workflow list — when no document
survives; in particular when every document is empty or there is no document
at all. -/
theorem loadWorkflows_spec (docs : List Workflow) :
    (¬(∀ d ∈ docs, isEmptyDoc d) →
      LoadWorkflows docs = .ok (docs.filter (fun d => !isEmptyDoc d)))
    ∧ ((∀ d ∈ docs, isEmptyDoc d) →
      LoadWorkflows docs = .error "no workflows found") := by
  constructor
  · intro h
    have hne : docs.filter (fun d => !isEmptyDoc d) ≠ [] := by
      intro hnil
      apply h
      intro d hd
      by_contra hcon
      have hmem : d ∈ docs.filter (fun d => !isEmptyDoc d) := by
        rw [List.mem_filter]
        exact ⟨hd, by simp [hcon]⟩
      rw [hnil] at hmem
      exact absurd hmem (List.not_mem_nil d)
    simp [LoadWorkflows, collectDocs_eq_filter, hne]
  · intro h
    have hnil : docs.filter (fun d => !isEmptyDoc d) = [] := by
      apply List.filter_eq_nil_iff.mpr
      intro d hd
      simp [h d hd]
    simp [LoadWorkflows, collectDocs_eq_filter, hnil]

/-- C6 witness: a stream with one empty and one non-empty document keeps
exactly the non-empty one; instantiates `loadWorkflows_spec`. -/
theorem loadWorkflows_spec_witness :
    LoadWorkflows [⟨"", []⟩, ⟨"w", [WorkflowStep.zero]⟩]
      = .ok [⟨"w", [WorkflowStep.zero]⟩] := by
  have h := (loadWorkflows_spec [⟨"", []⟩, ⟨"w", [WorkflowStep.zero]⟩]).1 (by decide)
  simpa using h

/-- C2 (code behaviour at the failing input): a step of kind `llm` with an
empty prompt and an empty model passes `Validate`, because the `case
StepLLM:` arm of the switch in validate.go has an empty body and Go switch
cases do not fall through; the prompt/model checks are only reachable for
`local_llm`.  The claim (and §4.A of the spec: "Model steps require a
non-empty prompt and a non-empty model") requires an error here. -/
theorem validate_llm_step_unchecked :
    Validate ⟨"w", [{ WorkflowStep.zero with name := "s", type := "llm" }]⟩ = .ok () := rfl

/-- C7: for every wait-for step the generator lowers, a `wait_timeout` of 0
(the Go zero value, i.e. also an absent field) yields a gate that blocks
forever when no signal is ever published on the referenced key, while a
positive `wait_timeout` yields a gate that aborts fatally with the timeout
diagnostic when no signal is published within the window. -/
theorem waitGate_timeout_spec (m : String → Option String) (st : WorkflowStep) (g : WaitGate)
    (hg : emitWaitGate m st = some g) :
    (st.waitTimeout = 0 → runWaitGate g none = .blocksForever)
    ∧ (st.waitTimeout > 0 → runWaitGate g none = .fatalTimeout) := by
  have hW : g.timeoutSec = st.waitTimeout := by
    unfold emitWaitGate at hg
    split at hg
    · exact absurd hg (by simp)
    · injection hg with h
      rw [← h]
  constructor
  · intro h0
    simp [runWaitGate, hW, h0]
  · intro hpos
    simp [runWaitGate, hW, hpos]

/-- C7 witness: instantiates `waitGate_timeout_spec` on concrete gates for
timeouts 5 and 0. -/
theorem waitGate_timeout_spec_witness :
    runWaitGate ⟨"p.s", "p.s", 5⟩ none = .fatalTimeout
    ∧ runWaitGate ⟨"p.s", "p.s", 0⟩ none = .blocksForever := by
  constructor
  · exact (waitGate_timeout_spec (fun _ => none)
      { WorkflowStep.zero with waitFor := "p.s", waitTimeout := 5 } ⟨"p.s", "p.s", 5⟩ rfl).2
      (by decide)
  · exact (waitGate_timeout_spec (fun _ => none)
      { WorkflowStep.zero with waitFor := "p.s", waitTimeout := 0 } ⟨"p.s", "p.s", 0⟩ rfl).1 rfl

/-- C8 counterexample: when `os.WriteFile` fails, the epilogue emitted by
`Generate` (its write line is the recorded `writeFileLine`, binding the
error to `_`) reports **nothing** to standard error — the claim's "the
error is reported to standard error" is false — while the run still prints
its completion marker and leaves the exit code unchanged. -/
theorem emitEpilogue_write_error_unreported :
    (runEmitEpilogue (some "disk full")).stderrLines = []
    ∧ (runEmitEpilogue (some "disk full")).stdoutLines = ["\n✅ Workflows completed"]
    ∧ (runEmitEpilogue (some "disk full")).exitCode = 0
    ∧ writeFileLine ∈ epilogueFragments "example_run.json" := by
  refine ⟨rfl, rfl, rfl, ?_⟩
  simp [epilogueFragments]

/-- C8 amended: whatever the outcome of the artifact write, the emitted
epilogue discards the write error (it is reported nowhere, standard error
included), prints the completion marker, and leaves the process exit code
unchanged. -/
theorem emitEpilogue_spec (writeErr : Option String) :
    runEmitEpilogue writeErr
      = { discardedWriteError := writeErr
        , stderrLines := []
        , stdoutLines := ["\n✅ Workflows completed"]
        , exitCode := 0 }
    ∧ writeFileLine ∈ epilogueFragments "example_run.json"
    ∧ completionMarkerLine ∈ epilogueFragments "example_run.json" := by
  refine ⟨rfl, ?_, ?_⟩ <;> simp [epilogueFragments]

/-- C9: with a worker client configured (subprocess mode),
`LocalLlamaRuntime.Generate` first resolves the model spec and loads and
caches the model in the calling process; if that load fails the load error
is returned and **no** request is ever sent to the worker, and if it
succeeds the model is in the parent's cache and exactly one request frame
goes to the worker. -/
theorem localLlamaGenerate_spec {M : Type} (send : String → String → Int → Except String String)
    (absPath : String → String) (loader : String → Except String M)
    (predict : M → String → Int → Except String String)
    (cache : List (String × M)) (prompt spec : String) (maxTokens : Int)
    (hcache : cache.lookup (absPath (resolveModelSpec spec)) = none) :
    (∀ e, loader (absPath (resolveModelSpec spec)) = .error e →
      LocalLlamaGenerate (some send) absPath loader predict cache prompt spec maxTokens
        = ⟨.error ("failed to load model " ++ absPath (resolveModelSpec spec) ++ ": " ++ e),
            cache, []⟩)
    ∧ (∀ mdl, loader (absPath (resolveModelSpec spec)) = .ok mdl →
      LocalLlamaGenerate (some send) absPath loader predict cache prompt spec maxTokens
        = ⟨send (resolveModelSpec spec) prompt maxTokens,
            cache ++ [(absPath (resolveModelSpec spec), mdl)],
            [(resolveModelSpec spec, prompt, maxTokens)]⟩) := by
  constructor
  · intro e he
    simp [LocalLlamaGenerate, loadModel, hcache, he]
  · intro mdl hm
    simp [LocalLlamaGenerate, loadModel, hcache, hm]

/-- C9 witness: a failing loader on an uncached logical model name returns
the load error and sends nothing to the worker; instantiates
`localLlamaGenerate_spec`. -/
theorem localLlamaGenerate_spec_witness :
    LocalLlamaGenerate (M := Unit) (some (fun _ _ _ => .ok "ans")) id
      (fun _ => .error "no such file") (fun _ _ _ => .ok "x") [] "hi" "mistral" 0
      = ⟨.error "failed to load model ./models/mistral.gguf: no such file", [], []⟩ := by
  have h := (localLlamaGenerate_spec (M := Unit) (fun _ _ _ => .ok "ans") id
    (fun _ => .error "no such file") (fun _ _ _ => .ok "x") [] "hi" "mistral" 0 rfl).1
    "no such file" rfl
  have hres : resolveModelSpec "mistral" = "./models/mistral.gguf" := rfl
  rw [hres] at h
  simpa using h

lemma invalidRequest_ne_empty (m : String) : ("invalid request: " ++ m) ≠ "" := by
  obtain ⟨md⟩ := m
  intro hcon
  have hd : ("invalid request: " ++ String.mk md).data = "".data := congrArg String.data hcon
  simp [String.data] at hd

/-- C10: the worker server loop answers every decoded input line with
exactly one response frame, in order; a line that fails to unmarshal gets a
response carrying whatever id was decoded and a non-empty `err`, and the
loop keeps serving the following lines, ending exactly when the input list
(standard input) is exhausted. -/
theorem serverRun_spec (handler : String → String → Int → String × Option String)
    (lines : List WireLine) :
    (serverRun handler lines).length = lines.length
    ∧ List.Forall₂ (fun (l : WireLine) (r : WResponse) =>
        match l with
        | .ok q => r = serveLine handler (.ok q)
        | .bad pid msg => r.id = pid ∧ r.val = "" ∧ r.err = "invalid request: " ++ msg ∧ r.err ≠ "")
      lines (serverRun handler lines) := by
  constructor
  · induction lines with
    | nil => rfl
    | cons l rest ih => simp [serverRun, ih]
  · induction lines with
    | nil => exact List.Forall₂.nil
    | cons l rest ih =>
      refine List.Forall₂.cons ?_ ih
      cases l with
      | ok q => rfl
      | bad pid msg => exact ⟨rfl, rfl, rfl, invalidRequest_ne_empty msg⟩

lemma lastAssoc_eq_none (es : List (String × String)) (k : String)
    (h : ∀ e ∈ es, e.1 ≠ k) : lastAssoc es k = none := by
  induction es with
  | nil => rfl
  | cons e t ih =>
    have ht := ih (fun e' he' => h e' (List.mem_cons_of_mem _ he'))
    have hk : k ≠ e.1 := Ne.symm (h e (List.mem_cons_self e t))
    simp [lastAssoc, ht, hk]

lemma lastAssoc_of_nodup (es : List (String × String)) (k v : String)
    (hnd : (es.map Prod.fst).Nodup) (hmem : (k, v) ∈ es) : lastAssoc es k = some v := by
  induction es with
  | nil => cases hmem
  | cons e t ih =>
    rw [List.map_cons, List.nodup_cons] at hnd
    rcases List.mem_cons.mp hmem with he | ht
    · subst he
      have hnone : lastAssoc t k = none := by
        apply lastAssoc_eq_none
        intro e' he' hk
        have hmm : e'.1 ∈ List.map Prod.fst t := List.mem_map_of_mem Prod.fst he'
        rw [hk] at hmm
        exact hnd.1 hmm
      simp [lastAssoc, hnone]
    · simp [lastAssoc, ih hnd.2 ht]

lemma goFold_lookup (es : List (String × String)) (m : String → Option String) (k : String) :
    (es.foldl (fun m e => goMapUpdate m e.1 e.2) m) k
      = match lastAssoc es k with
        | some v => some v
        | none => m k := by
  induction es generalizing m with
  | nil => rfl
  | cons e t ih =>
    rw [List.foldl_cons, ih, lastAssoc]
    cases h : lastAssoc t k with
    | some v => rfl
    | none =>
      by_cases hk : k = e.1
      · simp [goMapUpdate, hk]
      · simp [goMapUpdate, hk]

lemma stepEntriesWf_mem (wfIdx : Nat) (wfName : String) (total : Nat)
    (pre2 post2 : List WorkflowStep) (st : WorkflowStep) (j0 : Nat) :
    (wfName ++ "." ++ st.name,
      prefixedStepKey (prefixedWorkflowName wfIdx wfName) wfIdx (j0 + pre2.length) total st.name)
      ∈ stepEntriesWf wfIdx wfName total j0 (pre2 ++ st :: post2) := by
  induction pre2 generalizing j0 with
  | nil => simp [stepEntriesWf]
  | cons p t ih =>
    rw [List.cons_append, stepEntriesWf]
    refine List.mem_cons_of_mem _ ?_
    rw [show j0 + (p :: t).length = (j0 + 1) + t.length by simp; omega]
    exact ih (j0 + 1)

lemma stepEntriesFrom_mem (pre post : List Workflow) (wf : Workflow)
    (pre2 post2 : List WorkflowStep) (st : WorkflowStep) (i0 : Nat)
    (hs : wf.steps = pre2 ++ st :: post2) :
    (wf.name ++ "." ++ st.name,
      prefixedStepKey (prefixedWorkflowName (i0 + pre.length) wf.name) (i0 + pre.length)
        pre2.length wf.steps.length st.name)
      ∈ stepEntriesFrom i0 (pre ++ wf :: post) := by
  induction pre generalizing i0 with
  | nil =>
    rw [List.nil_append, stepEntriesFrom]
    apply List.mem_append_left
    have h := stepEntriesWf_mem i0 wf.name wf.steps.length pre2 post2 st 0
    rw [← hs] at h
    simpa using h
  | cons w t ih =>
    rw [List.cons_append, stepEntriesFrom]
    apply List.mem_append_right
    rw [show i0 + (w :: t).length = (i0 + 1) + t.length by simp; omega]
    exact ih (i0 + 1)

/-- C3: for a validated workflow list whose source-form step keys are
pairwise distinct, the generator gives the workflow at (0-based) position
`pre.length` the prefixed key `"(pre.length+1)_W"`, gives its step at
position `pre2.length` the qualified signal id
`"I_W.I_J/N_S"` (`I`,`J` 1-based, `N` the step count), maps the source-form
key `"W.S"` to that qualified id in `stepKeyMap`, resolves a `wait_for`
equal to `"W.S"` to the qualified id, and passes any `wait_for` value
absent from the map through unchanged. -/
theorem generator_identifier_scheme (wfs : List Workflow)
    (pre post : List Workflow) (wf : Workflow)
    (pre2 post2 : List WorkflowStep) (st : WorkflowStep)
    (hw : wfs = pre ++ wf :: post) (hs : wf.steps = pre2 ++ st :: post2)
    (hnd : ((stepEntries wfs).map Prod.fst).Nodup) :
    prefixedWorkflowName pre.length wf.name = toString (pre.length + 1) ++ "_" ++ wf.name
    ∧ prefixedStepKey (prefixedWorkflowName pre.length wf.name) pre.length pre2.length
        wf.steps.length st.name
        = toString (pre.length + 1) ++ "_" ++ wf.name ++ "." ++ toString (pre.length + 1) ++ "_"
          ++ toString (pre2.length + 1) ++ "/" ++ toString wf.steps.length ++ "_" ++ st.name
    ∧ buildStepKeyMap wfs (wf.name ++ "." ++ st.name)
        = some (prefixedStepKey (prefixedWorkflowName pre.length wf.name) pre.length pre2.length
            wf.steps.length st.name)
    ∧ resolveWaitFor (buildStepKeyMap wfs) (wf.name ++ "." ++ st.name)
        = prefixedStepKey (prefixedWorkflowName pre.length wf.name) pre.length pre2.length
            wf.steps.length st.name
    ∧ (∀ s, s ∉ (stepEntries wfs).map Prod.fst → resolveWaitFor (buildStepKeyMap wfs) s = s) := by
  have hmem : (wf.name ++ "." ++ st.name,
      prefixedStepKey (prefixedWorkflowName pre.length wf.name) pre.length pre2.length
        wf.steps.length st.name) ∈ stepEntries wfs := by
    rw [hw]
    have h := stepEntriesFrom_mem pre post wf pre2 post2 st 0 hs
    simpa [stepEntries] using h
  have h3 : buildStepKeyMap wfs (wf.name ++ "." ++ st.name)
      = some (prefixedStepKey (prefixedWorkflowName pre.length wf.name) pre.length pre2.length
          wf.steps.length st.name) := by
    rw [buildStepKeyMap, goFold_lookup, lastAssoc_of_nodup _ _ _ hnd hmem]
  refine ⟨rfl, rfl, h3, ?_, ?_⟩
  · rw [resolveWaitFor, h3]
    rfl
  · intro s hns
    have hnone : lastAssoc (stepEntries wfs) s = none := by
      apply lastAssoc_eq_none
      intro e he hk
      have hmm : e.1 ∈ List.map Prod.fst (stepEntries wfs) := List.mem_map_of_mem Prod.fst he
      rw [hk] at hmm
      exact hns hmm
    rw [resolveWaitFor, buildStepKeyMap, goFold_lookup, hnone]
    rfl

/-- C3 witness: on two concrete workflows, the source key `beta.go` of the
second workflow's only step resolves to `2_beta.2_1/1_go` and an absent
reference passes through unchanged; instantiates
`generator_identifier_scheme`. -/
theorem generator_identifier_scheme_witness :
    buildStepKeyMap wfsC3 "beta.go" = some "2_beta.2_1/1_go"
    ∧ resolveWaitFor (buildStepKeyMap wfsC3) "missing.ref" = "missing.ref" := by
  have h := generator_identifier_scheme wfsC3
    [⟨"alpha", [stepNamed "one", stepNamed "two"]⟩] [] ⟨"beta", [stepNamed "go"]⟩
    [] [] (stepNamed "go") rfl rfl (by decide)
  exact ⟨h.2.2.1, h.2.2.2.2 "missing.ref" (by decide)⟩

lemma dropTrailing_eq_rdropWhile (p : Char → Bool) (l : List Char) :
    dropTrailing p l = List.rdropWhile p l := rfl

lemma listTrimSpace_subset (l : List Char) : listTrimSpace l ⊆ l := by
  intro c hc
  have h1 : listTrimSpace l ⊆ l.dropWhile isGoSpace := by
    rw [listTrimSpace, dropTrailing_eq_rdropWhile]
    exact ( List.rdropWhile_prefix _ _).subset
  exact (List.dropWhile_suffix isGoSpace).subset (h1 hc)

lemma dropWhile_fixpoint_of_pre {p : Char → Bool} {m r : List Char}
    (hpre : r <+: m) (hm : m.dropWhile p = m) : r.dropWhile p = r := by
  rcases hpre with ⟨t, ht⟩
  apply List.dropWhile_eq_self_iff.mpr
  intro hl
  have hm0 : 0 < m.length := by
    rw [← ht]
    simp only [List.length_append]
    omega
  have hget : m.get ⟨0, hm0⟩ = r.get ⟨0, hl⟩ := by
    subst ht
    simp [List.getElem_append_left hl]
  have hnp := List.dropWhile_eq_self_iff.mp hm hm0
  rw [hget] at hnp
  exact hnp

lemma listTrimSpace_idem (l : List Char) :
    listTrimSpace (listTrimSpace l) = listTrimSpace l := by
  have hmfix : (l.dropWhile isGoSpace).dropWhile isGoSpace = l.dropWhile isGoSpace :=
    List.dropWhile_idempotent isGoSpace l
  have hz : listTrimSpace l <+: l.dropWhile isGoSpace := by
    rw [listTrimSpace, dropTrailing_eq_rdropWhile]
    exact List.rdropWhile_prefix _ _
  have h1 : (listTrimSpace l).dropWhile isGoSpace = listTrimSpace l :=
    dropWhile_fixpoint_of_pre hz hmfix
  show dropTrailing isGoSpace ((listTrimSpace l).dropWhile isGoSpace) = listTrimSpace l
  rw [h1]
  show dropTrailing isGoSpace (dropTrailing isGoSpace (l.dropWhile isGoSpace))
    = dropTrailing isGoSpace (l.dropWhile isGoSpace)
  rw [dropTrailing_eq_rdropWhile, dropTrailing_eq_rdropWhile]
  exact List.rdropWhile_idempotent _ _

lemma removeNuls_not_mem_nul (l : List Char) : '\x00' ∉ removeNuls l := by
  intro h
  rw [removeNuls, List.mem_filter] at h
  simp at h

lemma removeNuls_subset (l : List Char) : removeNuls l ⊆ l := by
  intro c hc
  exact (List.mem_filter.mp hc).1

lemma removeNuls_fixpoint (l : List Char) (h : '\x00' ∉ l) : removeNuls l = l := by
  apply List.filter_eq_self.mpr
  intro a ha
  simp only [ne_eq, decide_not, Bool.not_eq_true', decide_eq_false_iff_not]
  intro he
  exact h (he ▸ ha)

lemma collapseGo_true_head (l : List Char) :
    collapseGo true l = []
    ∨ ∃ c t, collapseGo true l = c :: t ∧ isRe2Space c = false := by
  induction l with
  | nil => left; rfl
  | cons c rest ih =>
    by_cases h : isRe2Space c = true
    · simpa [collapseGo, h] using ih
    · right
      refine ⟨c, collapseGo false rest, ?_, by simpa using h⟩
      simp [collapseGo, h]

lemma collapseGo_mem (l : List Char) (b : Bool) (c : Char) (hc : c ∈ collapseGo b l) :
    c = ' ' ∨ (c ∈ l ∧ isRe2Space c = false) := by
  induction l generalizing b with
  | nil => simp [collapseGo] at hc
  | cons d rest ih =>
    by_cases h : isRe2Space d = true
    · cases b with
      | true =>
        rw [show collapseGo true (d :: rest) = collapseGo true rest by simp [collapseGo, h]] at hc
        rcases ih true hc with h1 | ⟨h1, h2⟩
        · exact Or.inl h1
        · exact Or.inr ⟨List.mem_cons_of_mem _ h1, h2⟩
      | false =>
        rw [show collapseGo false (d :: rest) = ' ' :: collapseGo true rest
          by simp [collapseGo, h]] at hc
        rcases List.mem_cons.mp hc with h1 | h1
        · exact Or.inl h1
        · rcases ih true h1 with h2 | ⟨h2, h3⟩
          · exact Or.inl h2
          · exact Or.inr ⟨List.mem_cons_of_mem _ h2, h3⟩
    · rw [show collapseGo b (d :: rest) = d :: collapseGo false rest
        by cases b <;> simp [collapseGo, h]] at hc
      rcases List.mem_cons.mp hc with h1 | h1
      · subst h1
        exact Or.inr ⟨List.mem_cons_self _ _, by simpa using h⟩
      · rcases ih false h1 with h2 | ⟨h2, h3⟩
        · exact Or.inl h2
        · exact Or.inr ⟨List.mem_cons_of_mem _ h2, h3⟩

lemma noTwoWs_tail (c : Char) (l : List Char) (h : noTwoWs (c :: l) = true) :
    noTwoWs l = true := by
  cases l with
  | nil => rfl
  | cons d t =>
    rw [noTwoWs] at h
    exact (Bool.and_eq_true_iff.mp h).2

lemma collapseGo_noTwoWs (l : List Char) (b : Bool) : noTwoWs (collapseGo b l) = true := by
  induction l generalizing b with
  | nil => cases b <;> rfl
  | cons c rest ih =>
    by_cases h : isRe2Space c = true
    · cases b with
      | true =>
        rw [show collapseGo true (c :: rest) = collapseGo true rest by simp [collapseGo, h]]
        exact ih true
      | false =>
        rw [show collapseGo false (c :: rest) = ' ' :: collapseGo true rest
          by simp [collapseGo, h]]
        rcases collapseGo_true_head rest with h0 | ⟨d, t, hdt, hd⟩
        · rw [h0]; rfl
        · rw [hdt, noTwoWs, hd]
          have h2 := ih true
          rw [hdt] at h2
          simp [h2]
    · rw [show collapseGo b (c :: rest) = c :: collapseGo false rest
        by cases b <;> simp [collapseGo, h]]
      cases hX : collapseGo false rest with
      | nil => rfl
      | cons d t =>
        rw [noTwoWs]
        have h2 := ih false
        rw [hX] at h2
        simp [h2, h]

lemma noTwoWs_append_left (s t : List Char) (h : noTwoWs (s ++ t) = true) :
    noTwoWs s = true := by
  induction s with
  | nil => rfl
  | cons a s' ih =>
    cases s' with
    | nil => rfl
    | cons b s'' =>
      rw [List.cons_append, List.cons_append, noTwoWs] at h
      rcases Bool.and_eq_true_iff.mp h with ⟨h1, h2⟩
      rw [noTwoWs, h1]
      have := ih (by rw [List.cons_append]; exact h2)
      simp [this]

lemma noTwoWs_append_right (t s : List Char) (h : noTwoWs (t ++ s) = true) :
    noTwoWs s = true := by
  induction t with
  | nil => exact h
  | cons a t' ih =>
    rw [List.cons_append] at h
    exact ih (noTwoWs_tail _ _ h)

lemma collapseGo_fixpoint (l : List Char) (hada : noTwoWs l = true)
    (hsp : ∀ c ∈ l, isRe2Space c = true → c = ' ') : collapseGo false l = l := by
  induction l with
  | nil => rfl
  | cons c rest ih =>
    by_cases h : isRe2Space c = true
    · have hc : c = ' ' := hsp c (List.mem_cons_self _ _) h
      subst hc
      rw [show collapseGo false (' ' :: rest) = ' ' :: collapseGo true rest
        by simp [collapseGo, h]]
      cases rest with
      | nil => rfl
      | cons d t =>
        have hd : isRe2Space d = false := by
          rw [noTwoWs] at hada
          rcases Bool.and_eq_true_iff.mp hada with ⟨h1, _⟩
          simpa [h] using h1
        have htail : collapseGo false (d :: t) = d :: t :=
          ih (noTwoWs_tail _ _ hada) (fun x hx => hsp x (List.mem_cons_of_mem _ hx))
        rw [show collapseGo true (d :: t) = collapseGo false (d :: t)
          by simp [collapseGo, hd], htail]
    · rw [show collapseGo false (c :: rest) = c :: collapseGo false rest
        by simp [collapseGo, h]]
      rw [ih (noTwoWs_tail _ _ hada) (fun x hx => hsp x (List.mem_cons_of_mem _ hx))]

lemma escapeQuotes_fixpoint (l : List Char) (h : '\"' ∉ l) : escapeQuotes l = l := by
  induction l with
  | nil => rfl
  | cons c rest ih =>
    have hc : ¬(c = '\"') := fun he => h (he ▸ List.mem_cons_self _ _)
    rw [escapeQuotes, if_neg hc, ih (fun hm => h (List.mem_cons_of_mem _ hm))]

lemma escapeQuotes_mem (l : List Char) (c : Char) (hc : c ∈ escapeQuotes l) :
    c = '\\' ∨ c ∈ l := by
  induction l with
  | nil => simp [escapeQuotes] at hc
  | cons d rest ih =>
    rw [escapeQuotes] at hc
    by_cases hd : d = '\"'
    · rw [if_pos hd] at hc
      rcases List.mem_cons.mp hc with h1 | h1
      · exact Or.inl h1
      · rcases List.mem_cons.mp h1 with h2 | h2
        · exact Or.inr (h2 ▸ hd ▸ List.mem_cons_self _ _)
        · rcases ih h2 with h3 | h3
          · exact Or.inl h3
          · exact Or.inr (List.mem_cons_of_mem _ h3)
    · rw [if_neg hd] at hc
      rcases List.mem_cons.mp hc with h1 | h1
      · exact Or.inr (h1 ▸ List.mem_cons_self _ _)
      · rcases ih h1 with h3 | h3
        · exact Or.inl h3
        · exact Or.inr (List.mem_cons_of_mem _ h3)

lemma escapeQuotes_head_ne (l : List Char) (d : Char) (t : List Char)
    (h : escapeQuotes l = d :: t) : ¬(d = '\"') := by
  cases l with
  | nil => simp [escapeQuotes] at h
  | cons c rest =>
    rw [escapeQuotes] at h
    by_cases hc : c = '\"'
    · rw [if_pos hc] at h
      injection h with h1 h2
      intro hd
      rw [← h1] at hd
      exact absurd hd (by decide)
    · rw [if_neg hc] at h
      injection h with h1 h2
      intro hd
      exact hc (by rw [h1, hd])

lemma quotesEscaped_escapeQuotes (l : List Char) :
    quotesEscaped (escapeQuotes l) = true := by
  induction l with
  | nil => rfl
  | cons c rest ih =>
    rw [escapeQuotes]
    by_cases hc : c = '\"'
    · rw [if_pos hc]
      rw [quotesEscaped]
      simp [ih]
    · rw [if_neg hc]
      cases hE : escapeQuotes rest with
      | nil => rw [quotesEscaped]; simp [hc]
      | cons d t =>
        have hd : ¬(d = '\"') := escapeQuotes_head_ne rest d t hE
        rw [quotesEscaped, if_neg hc, if_neg (by simp [hd])]
        rw [← hE, ih]

/-- C1 amended: `SanitizeForShell` is idempotent on every string containing
no double quote (the quote-escaping pass re-escapes the backslashes it
introduced, so idempotence fails on strings with quotes — see the
counterexample), and for *every* string the result contains no carriage
return, no tab, no null byte, and no unescaped double quote (every `"` in
the result is immediately preceded by a backslash). -/
theorem sanitizeForShell_spec (s : String) :
    ('\"' ∉ s.data → SanitizeForShell (SanitizeForShell s) = SanitizeForShell s)
    ∧ '\r' ∉ (SanitizeForShell s).data
    ∧ '\t' ∉ (SanitizeForShell s).data
    ∧ '\x00' ∉ (SanitizeForShell s).data
    ∧ quotesEscaped (SanitizeForShell s).data = true := by
  by_cases hs : s = ""
  · subst hs
    exact ⟨fun _ => rfl, by decide, by decide, by decide, by decide⟩
  · have hdata : (SanitizeForShell s).data
        = escapeQuotes (listTrimSpace (collapseWs (removeNuls s.data))) := by
      rw [SanitizeForShell, if_neg hs]
    have hzy : listTrimSpace (collapseWs (removeNuls s.data)) ⊆ collapseWs (removeNuls s.data) :=
      listTrimSpace_subset _
    have hmemz : ∀ c, c ∈ listTrimSpace (collapseWs (removeNuls s.data)) →
        c = ' ' ∨ (c ∈ removeNuls s.data ∧ isRe2Space c = false) := by
      intro c hc
      exact collapseGo_mem _ _ _ (hzy hc)
    refine ⟨?_, ?_, ?_, ?_, ?_⟩
    · -- idempotence on quote-free input
      intro hnq
      have hnqz : '\"' ∉ listTrimSpace (collapseWs (removeNuls s.data)) := by
        intro hc
        rcases hmemz _ hc with h1 | ⟨h1, _⟩
        · exact absurd h1 (by decide)
        · exact hnq (removeNuls_subset _ h1)
      have hesc : escapeQuotes (listTrimSpace (collapseWs (removeNuls s.data)))
          = listTrimSpace (collapseWs (removeNuls s.data)) :=
        escapeQuotes_fixpoint _ hnqz
      have hout : SanitizeForShell s = ⟨listTrimSpace (collapseWs (removeNuls s.data))⟩ := by
        calc SanitizeForShell s = ⟨(SanitizeForShell s).data⟩ := rfl
          _ = ⟨listTrimSpace (collapseWs (removeNuls s.data))⟩ := by rw [hdata, hesc]
      rw [hout]
      by_cases hznil : listTrimSpace (collapseWs (removeNuls s.data)) = []
      · rw [hznil]
        rfl
      · have hne : (⟨listTrimSpace (collapseWs (removeNuls s.data))⟩ : String) ≠ "" := by
          intro hcon
          exact hznil (congrArg String.data hcon)
        rw [SanitizeForShell, if_neg hne]
        have hnonul : '\x00' ∉ listTrimSpace (collapseWs (removeNuls s.data)) := by
          intro hc
          rcases hmemz _ hc with h1 | ⟨h1, _⟩
          · exact absurd h1 (by decide)
          · exact removeNuls_not_mem_nul _ h1
        have h1 : removeNuls (listTrimSpace (collapseWs (removeNuls s.data)))
            = listTrimSpace (collapseWs (removeNuls s.data)) :=
          removeNuls_fixpoint _ hnonul
        have hada : noTwoWs (listTrimSpace (collapseWs (removeNuls s.data))) = true := by
        
          have hy1 : noTwoWs (collapseWs (removeNuls s.data)) = true :=
            collapseGo_noTwoWs _ false
          have hm2 : noTwoWs ((collapseWs (removeNuls s.data)).dropWhile isGoSpace) = true := by
            rcases List.dropWhile_suffix (l := collapseWs (removeNuls s.data)) isGoSpace
              with ⟨t, ht⟩
            exact noTwoWs_append_right t _ (by rw [ht]; exact hy1)
          have hpz : listTrimSpace (collapseWs (removeNuls s.data))
              <+: (collapseWs (removeNuls s.data)).dropWhile isGoSpace := by
            rw [listTrimSpace, dropTrailing_eq_rdropWhile]
            exact List.rdropWhile_prefix _ _
          rcases hpz with ⟨t2, ht2⟩
          exact noTwoWs_append_left _ t2 (by rw [ht2]; exact hm2)
        have hsp : ∀ c ∈ listTrimSpace (collapseWs (removeNuls s.data)),
            isRe2Space c = true → c = ' ' := by
          intro c hc hws
          rcases hmemz _ hc with h2 | ⟨_, h3⟩
          · exact h2
          · rw [hws] at h3
            exact absurd h3 (by simp)
        have h2 : collapseWs (listTrimSpace (collapseWs (removeNuls s.data)))
            = listTrimSpace (collapseWs (removeNuls s.data)) :=
          collapseGo_fixpoint _ hada hsp
        have h3 : listTrimSpace (listTrimSpace (collapseWs (removeNuls s.data)))
            = listTrimSpace (collapseWs (removeNuls s.data)) :=
          listTrimSpace_idem _
        show (⟨escapeQuotes (listTrimSpace (collapseWs (removeNuls
          (listTrimSpace (collapseWs (removeNuls s.data))))))⟩ : String) = _
        rw [h1, h2, h3, hesc]
    · rw [hdata]
      intro hmem
      rcases escapeQuotes_mem _ _ hmem with h1 | h1
      · exact absurd h1 (by decide)
      · rcases hmemz _ h1 with h2 | ⟨_, h3⟩
        · exact absurd h2 (by decide)
        · exact absurd h3 (by decide)
    · rw [hdata]
      intro hmem
      rcases escapeQuotes_mem _ _ hmem with h1 | h1
      · exact absurd h1 (by decide)
      · rcases hmemz _ h1 with h2 | ⟨_, h3⟩
        · exact absurd h2 (by decide)
        · exact absurd h3 (by decide)
    · rw [hdata]
      intro hmem
      rcases escapeQuotes_mem _ _ hmem with h1 | h1
      · exact absurd h1 (by decide)
      · rcases hmemz _ h1 with h2 | ⟨h2, _⟩
        · exact absurd h2 (by decide)
        · exact removeNuls_not_mem_nul _ h2
    · rw [hdata]
      exact quotesEscaped_escapeQuotes _

/-- C1 counterexample: `SanitizeForShell` is *not* idempotent — on the
one-character string `"` the first pass yields `\"` and the second pass
escapes the quote again, yielding `\\"`. -/
theorem sanitizeForShell_not_idempotent :
    SanitizeForShell (SanitizeForShell "\"") ≠ SanitizeForShell "\"" := by decide

/-- C1 witness: instantiates `sanitizeForShell_spec` on the quote-free
string `" a\tb "` (idempotence) and on `say "hi"` (escaping property). -/
theorem sanitizeForShell_spec_witness :
    (SanitizeForShell (SanitizeForShell " a\tb ") = SanitizeForShell " a\tb ")
    ∧ quotesEscaped (SanitizeForShell "say \"hi\"").data = true := by
  constructor
  · exact (sanitizeForShell_spec " a\tb ").1 (by decide)
  · exact (sanitizeForShell_spec "say \"hi\"").2.2.2.2

lemma u32le (a b : UInt32) (h : a ≤ b) : a.toNat ≤ b.toNat := by
  rw [UInt32.le_def, BitVec.le_def] at h
  exact h

/-- The regexp key class `[a-zA-Z0-9_.]` is disjoint from white space and
from the delimiters `=`, `{`, `}`, `/`. -/
lemma keyChar_classes (c : Char) (h : isKeyChar c = true) :
    isGoSpace c = false ∧ isRe2Space c = false ∧ c ≠ '=' ∧ c ≠ '\x7b' ∧ c ≠ '\x7d' := by
  rw [isKeyChar] at h
  simp only [Char.isAlpha, Char.isUpper, Char.isLower, Char.isDigit, Bool.or_eq_true,
    Bool.and_eq_true, decide_eq_true_eq] at h
  have hval : (65 ≤ c.val.toNat ∧ c.val.toNat ≤ 90) ∨ (97 ≤ c.val.toNat ∧ c.val.toNat ≤ 122)
      ∨ (48 ≤ c.val.toNat ∧ c.val.toNat ≤ 57) ∨ c.val.toNat = 95 ∨ c.val.toNat = 46 := by
    rcases h with (((⟨h1, h2⟩ | ⟨h1, h2⟩) | ⟨h1, h2⟩) | h1) | h1
    · exact Or.inl ⟨u32le _ _ h1, u32le _ _ h2⟩
    · exact Or.inr (Or.inl ⟨u32le _ _ h1, u32le _ _ h2⟩)
    · exact Or.inr (Or.inr (Or.inl ⟨u32le _ _ h1, u32le _ _ h2⟩))
    · subst h1; exact Or.inr (Or.inr (Or.inr (Or.inl rfl)))
    · subst h1; exact Or.inr (Or.inr (Or.inr (Or.inr rfl)))
  have hqn : ∀ (d : Char) (n : Nat), d.val.toNat = n → c.val.toNat ≠ n → ¬(c = d) :=
    fun d n hdn hne hc => hne (by rw [hc, hdn])
  have hvn : ∀ (n : UInt32) (m : Nat), n.toNat = m → c.val.toNat ≠ m → ¬(c.val = n) :=
    fun n m hnm hne hc => hne (by rw [hc, hnm])
  refine ⟨?_, ?_, ?_, ?_, ?_⟩
  · rw [isGoSpace]
    simp only [Bool.or_eq_false_iff, decide_eq_false_iff_not]
    refine ⟨⟨⟨⟨⟨⟨⟨⟨⟨⟨⟨⟨⟨⟨?_, ?_⟩, ?_⟩, ?_⟩, ?_⟩, ?_⟩, ?_⟩, ?_⟩, ?_⟩, ?_⟩, ?_⟩, ?_⟩, ?_⟩, ?_⟩, ?_⟩
    · exact hqn '\t' 9 rfl (by omega)
    · exact hqn '\n' 10 rfl (by omega)
    · exact hqn '\x0b' 11 rfl (by omega)
    · exact hqn '\x0c' 12 rfl (by omega)
    · exact hqn '\r' 13 rfl (by omega)
    · exact hqn ' ' 32 rfl (by omega)
    · exact hvn 0x85 133 rfl (by omega)
    · exact hvn 0xA0 160 rfl (by omega)
    · exact hvn 0x1680 5760 rfl (by omega)
    · rw [Bool.and_eq_false_iff]
      left
      rw [decide_eq_false_iff_not]
      intro hle
      have h8 := u32le _ _ hle
      rw [show ((0x2000 : UInt32)).toNat = 8192 from rfl] at h8
      omega
    · exact hvn 0x2028 8232 rfl (by omega)
    · exact hvn 0x2029 8233 rfl (by omega)
    · exact hvn 0x202F 8239 rfl (by omega)
    · exact hvn 0x205F 8287 rfl (by omega)
    · exact hvn 0x3000 12288 rfl (by omega)
  · rw [isRe2Space]
    simp only [Bool.or_eq_false_iff, decide_eq_false_iff_not]
    exact ⟨⟨⟨⟨hqn '\t' 9 rfl (by omega), hqn '\n' 10 rfl (by omega)⟩,
      hqn '\x0c' 12 rfl (by omega)⟩, hqn '\r' 13 rfl (by omega)⟩, hqn ' ' 32 rfl (by omega)⟩
  · exact hqn '=' 61 rfl (by omega)
  · exact hqn '\x7b' 123 rfl (by omega)
  · exact hqn '\x7d' 125 rfl (by omega)

lemma quote_not_space (q : Char) (hq : isQuoteChar q = true) : isGoSpace q = false := by
  rw [isQuoteChar] at hq
  simp only [Bool.or_eq_true, decide_eq_true_eq] at hq
  rcases hq with h | h <;> subst h <;> decide

lemma dropWhile_ws_append (p : Char → Bool) (W L : List Char) (hW : ∀ c ∈ W, p c = true) :
    (W ++ L).dropWhile p = L.dropWhile p := by
  induction W with
  | nil => rfl
  | cons w W' ih =>
    rw [List.cons_append, List.dropWhile_cons, if_pos (hW w (List.mem_cons_self _ _))]
    exact ih (fun c hc => hW c (List.mem_cons_of_mem _ hc))

lemma rdropWhile_ws_snoc (p : Char → Bool) (L w2 : List Char) (d : Char)
    (hw2 : ∀ c ∈ w2, p c = true) (hd : p d = false) :
    List.rdropWhile p ((L ++ [d]) ++ w2) = L ++ [d] := by
  rw [List.rdropWhile, List.reverse_append, List.reverse_append]
  rw [dropWhile_ws_append p _ _ (fun c hc => hw2 c (List.mem_reverse.mp hc))]
  rw [show (([d] : List Char).reverse ++ L.reverse) = d :: L.reverse by simp]
  rw [List.dropWhile_cons, if_neg (by simp [hd])]
  simp

lemma listTrimSpace_sandwich (w1 w2 mid : List Char) (c0 d : Char)
    (hw1 : ∀ x ∈ w1, isGoSpace x = true) (hw2 : ∀ x ∈ w2, isGoSpace x = true)
    (hc0 : isGoSpace c0 = false) (hd : isGoSpace d = false) :
    listTrimSpace (w1 ++ (c0 :: (mid ++ [d])) ++ w2) = c0 :: (mid ++ [d]) := by
  rw [listTrimSpace, List.append_assoc]
  rw [dropWhile_ws_append _ _ _ hw1]
  rw [List.cons_append, List.dropWhile_cons, if_neg (by simp [hc0])]
  rw [dropTrailing_eq_rdropWhile]
  rw [show (c0 :: ((mid ++ [d]) ++ w2)) = ((c0 :: mid) ++ [d]) ++ w2 by simp]
  rw [rdropWhile_ws_snoc _ _ _ _ hw2 hd]
  simp

lemma trim_of_no_space (L : List Char) (h : ∀ c ∈ L, isGoSpace c = false) :
    listTrimSpace L = L := by
  rw [listTrimSpace]
  have h1 : L.dropWhile isGoSpace = L := by
    apply List.dropWhile_eq_self_iff.mpr
    intro hl
    have hm : L[0] ∈ L := List.getElem_mem hl
    simp [h _ hm]
  rw [h1, dropTrailing_eq_rdropWhile]
  apply List.rdropWhile_eq_self_iff.mpr
  intro hl
  simp [h (L.getLast hl) (List.getLast_mem hl)]

lemma splitEq_first (A B : List Char) (hA : '=' ∉ A) :
    splitEq (A ++ '=' :: '=' :: B) = some (A, B) := by
  induction A with
  | nil => simp [splitEq]
  | cons a A' ih =>
    have ha : ¬(a = '=') := fun he => hA (he ▸ List.mem_cons_self _ _)
    rw [List.cons_append, splitEq, if_neg (fun hcon => ha hcon.1),
      ih (fun hm => hA (List.mem_cons_of_mem _ hm))]
    rfl

lemma trimQuotes_strip (q : Char) (lit : List Char) (hq : isQuoteChar q = true)
    (hh : ∀ c, lit.head? = some c → isQuoteChar c = false)
    (hl : ∀ c, lit.getLast? = some c → isQuoteChar c = false) :
    trimQuotes (q :: (lit ++ [q])) = lit := by
  cases lit with
  | nil =>
    rw [trimQuotes]
    rw [show ((q :: (([] : List Char) ++ [q]))) = [q, q] by simp]
    rw [List.dropWhile_cons, if_pos hq, List.dropWhile_cons, if_pos hq]
    rfl
  | cons c t =>
    have hc : isQuoteChar c = false := hh c rfl
    rcases List.eq_nil_or_concat (c :: t) with hnil | ⟨init, e, he⟩
    · simp at hnil
    · rw [List.concat_eq_append] at he
      have helast : isQuoteChar e = false := by
        apply hl
        rw [he, List.getLast?_concat]
      rw [trimQuotes, List.dropWhile_cons, if_pos hq]
      rw [show ((c :: t) ++ [q]).dropWhile isQuoteChar = (c :: t) ++ [q] by
        rw [List.cons_append, List.dropWhile_cons, if_neg (by simp [hc])]]
      rw [dropTrailing_eq_rdropWhile, he]
      rw [rdropWhile_ws_snoc isQuoteChar init [q] e
        (by intro x hx; rw [List.mem_singleton.mp hx]; exact hq) helast]

/-- C5 amended: for a condition of the supported shape
`{{name}} == <quoted literal>` (single or double quotes, arbitrary white
space around the operands) whose literal neither begins nor ends with a
quote character, `EvalCondition` returns true iff the map's value for
`name` (empty when absent) equals the literal with its surrounding quotes
stripped, printing nothing; a condition without `==`, or whose left
operand is not brace-wrapped, yields `false` together with the
`Unsupported condition` warning on standard out.  (Other right-hand
sides are compared after stripping *all* leading/trailing quote
characters, with no warning — see the counterexample.) -/
theorem evalCondition_spec (vars : List (String × String)) :
    (∀ (ws0 ws2 ws3 ws4 : List Char) (name lit : String) (q : Char),
      (∀ x ∈ ws0, isGoSpace x = true) → (∀ x ∈ ws2, isGoSpace x = true) →
      (∀ x ∈ ws3, isGoSpace x = true) → (∀ x ∈ ws4, isGoSpace x = true) →
      (∀ c ∈ name.data, isKeyChar c = true) →
      isQuoteChar q = true →
      (∀ c, lit.data.head? = some c → isQuoteChar c = false) →
      (∀ c, lit.data.getLast? = some c → isQuoteChar c = false) →
      evalCondition vars (condForm ws0 name ws2 ws3 q lit ws4)
        = (decide ((vars.lookup name).getD "" = lit), none))
    ∧ (∀ c : String, splitEq (listTrimSpace c.data) = none →
        evalCondition vars c = (false, some (unsupportedWarning c)))
    ∧ (∀ (c : String) (lraw rraw : List Char),
        splitEq (listTrimSpace c.data) = some (lraw, rraw) →
        (startsWith2 '\x7b' '\x7b' (listTrimSpace lraw)
          && endsWith2 '\x7d' '\x7d' (listTrimSpace lraw)) = false →
        evalCondition vars c = (false, some (unsupportedWarning c))) := by
  refine ⟨?_, ?_, ?_⟩
  · intro ws0 ws2 ws3 ws4 name lit q hw0 hw2 hw3 hw4 hkey hq hh hl
    have hqs : isGoSpace q = false := quote_not_space q hq
    have htrim : listTrimSpace (condForm ws0 name ws2 ws3 q lit ws4).data
        = '\x7b' :: (('\x7b' :: name.data ++ ['\x7d', '\x7d'] ++ ws2
          ++ '=' :: '=' :: ws3 ++ q :: lit.data) ++ [q]) :=
      listTrimSpace_sandwich ws0 ws4 _ '\x7b' q hw0 hw4 (by decide) hqs
    have hshape : '\x7b' :: (('\x7b' :: name.data ++ ['\x7d', '\x7d'] ++ ws2
          ++ '=' :: '=' :: ws3 ++ q :: lit.data) ++ [q])
        = ('\x7b' :: '\x7b' :: name.data ++ ['\x7d', '\x7d'] ++ ws2)
          ++ '=' :: '=' :: (ws3 ++ q :: (lit.data ++ [q])) := by
      simp
    have hA : '=' ∉ ('\x7b' :: '\x7b' :: name.data ++ ['\x7d', '\x7d'] ++ ws2) := by
      intro hmem
      simp at hmem
      rcases hmem with h1 | h1
      · exact absurd (hkey '=' h1) (by decide)
      · exact absurd (hw2 '=' h1) (by decide)
    have hleft : listTrimSpace ('\x7b' :: '\x7b' :: name.data ++ ['\x7d', '\x7d'] ++ ws2)
        = '\x7b' :: '\x7b' :: name.data ++ ['\x7d', '\x7d'] := by
      have h := listTrimSpace_sandwich [] ws2 ('\x7b' :: name.data ++ ['\x7d']) '\x7b' '\x7d'
        (by simp) hw2 (by decide) (by decide)
      simpa using h
    have hsw : (startsWith2 '\x7b' '\x7b' ('\x7b' :: '\x7b' :: name.data ++ ['\x7d', '\x7d'])
        && endsWith2 '\x7d' '\x7d' ('\x7b' :: '\x7b' :: name.data ++ ['\x7d', '\x7d']))
        = true := by
      simp [startsWith2, endsWith2]
    have hvar : listTrimSpace
        ((('\x7b' :: '\x7b' :: name.data ++ ['\x7d', '\x7d']).drop 2).dropLast.dropLast)
        = name.data := by
      rw [show ('\x7b' :: '\x7b' :: name.data ++ ['\x7d', '\x7d']).drop 2
        = name.data ++ ['\x7d', '\x7d'] by simp]
      rw [show (name.data ++ ['\x7d', '\x7d']) = ((name.data ++ ['\x7d']) ++ ['\x7d']) by simp]
      rw [List.dropLast_concat, List.dropLast_concat]
      exact trim_of_no_space _ (fun c hc => (keyChar_classes c (hkey c hc)).1)
    have hright : listTrimSpace (ws3 ++ q :: (lit.data ++ [q])) = q :: (lit.data ++ [q]) := by
      have h := listTrimSpace_sandwich ws3 [] lit.data q q hw3 (by simp) hqs hqs
      simpa using h
    have hrv : trimQuotes (q :: (lit.data ++ [q])) = lit.data :=
      trimQuotes_strip q lit.data hq hh hl
    simp only [evalCondition]
    rw [htrim, hshape, splitEq_first _ _ hA]
    dsimp only
    rw [hleft, if_pos hsw, hvar, hright, hrv]
    refine congrArg (fun b => (b, none)) ?_
    apply decide_eq_decide.mpr
    exact (String.ext_iff).symm
  · intro c hC
    simp only [evalCondition]
    rw [hC]
  · intro c lraw rraw hC hcond
    simp only [evalCondition]
    rw [hC]
    dsimp only
    rw [if_neg (by simp [hcond])]

/-- C5 counterexample: the claim's "every expression not of the form
`{{name}} == <quoted literal>` makes EvalCondition return false and print
a warning" is false — an unquoted right-hand side (`{{x}} == y`) is
compared literally and can return `true` with no warning; and for a
quoted literal that itself ends with a quote character, `strings.Trim`
strips it too, so `{{x}} == "'a'"` compares against `a` instead of `'a'`
and returns `false` where the claim requires `true`. -/
theorem evalCondition_counterexample :
    evalCondition [("x", "y")] "\x7b\x7bx\x7d\x7d == y" = (true, none)
    ∧ evalCondition [("x", "'a'")] "\x7b\x7bx\x7d\x7d == \"'a'\"" = (false, none) := by
  constructor
  · decide
  · decide

/-- C5 witness: instantiates `evalCondition_spec` on
`{{mode}} == 'production'` under a map where `mode` is `production`. -/
theorem evalCondition_spec_witness :
    evalCondition [("mode", "production")] "\x7b\x7bmode\x7d\x7d == 'production'"
      = (true, none) := by
  have h := (evalCondition_spec [("mode", "production")]).1 [] [' '] [' '] []
    "mode" "production" '\''
    (by simp) (by intro x hx; rw [List.mem_singleton.mp hx]; rfl)
    (by intro x hx; rw [List.mem_singleton.mp hx]; rfl) (by simp)
    (by decide) (by decide) (by decide) (by decide)
  have hc : condForm [] "mode" [' '] [' '] '\'' "production" [] =
      "\x7b\x7bmode\x7d\x7d == 'production'" := by decide
  rw [hc] at h
  rw [h]
  decide

lemma re2_not_key (c : Char) (h : isRe2Space c = true) : isKeyChar c = false := by
  by_contra hcon
  rw [Bool.not_eq_false] at hcon
  rw [(keyChar_classes c hcon).2.1] at h
  exact absurd h (by simp)

lemma skipWs_ws_append (w l : List Char) (hw : ∀ c ∈ w, isRe2Space c = true) :
    skipWs (w ++ l) = skipWs l := by
  induction w with
  | nil => rfl
  | cons c w' ih =>
    rw [List.cons_append, skipWs, if_pos (hw c (List.mem_cons_self _ _))]
    exact ih (fun x hx => hw x (List.mem_cons_of_mem _ hx))

lemma skipWs_cons_false (c : Char) (l : List Char) (hc : isRe2Space c = false) :
    skipWs (c :: l) = c :: l := by
  rw [skipWs, if_neg (by simp [hc])]

lemma takeKey_span (k l : List Char) (hk : ∀ c ∈ k, isKeyChar c = true)
    (hstop : ∀ c, l.head? = some c → isKeyChar c = false) :
    takeKey (k ++ l) = (k, l) := by
  induction k with
  | nil =>
    cases l with
    | nil => rfl
    | cons c t =>
      rw [List.nil_append, takeKey, if_neg (by simp [hstop c rfl])]
  | cons a k' ih =>
    rw [List.cons_append, takeKey, if_pos (hk a (List.mem_cons_self _ _))]
    rw [ih (fun x hx => hk x (List.mem_cons_of_mem _ hx))]

lemma tryMatch_spec (w1 k w2 rest : List Char)
    (hw1 : ∀ c ∈ w1, isRe2Space c = true) (hk : k ≠ [])
    (hkk : ∀ c ∈ k, isKeyChar c = true) (hw2 : ∀ c ∈ w2, isRe2Space c = true) :
    tryMatch (w1 ++ (k ++ (w2 ++ '\x7d' :: '\x7d' :: rest))) = some (k, rest) := by
  have hskip1 : skipWs (w1 ++ (k ++ (w2 ++ '\x7d' :: '\x7d' :: rest)))
      = k ++ (w2 ++ '\x7d' :: '\x7d' :: rest) := by
    rw [skipWs_ws_append _ _ hw1]
    cases k with
    | nil => exact absurd rfl hk
    | cons a k' =>
      rw [List.cons_append]
      exact skipWs_cons_false a _ (keyChar_classes a (hkk a (List.mem_cons_self _ _))).2.1
  have htake : takeKey (k ++ (w2 ++ '\x7d' :: '\x7d' :: rest))
      = (k, w2 ++ '\x7d' :: '\x7d' :: rest) := by
    apply takeKey_span _ _ hkk
    intro c hc
    cases w2 with
    | nil =>
      rw [List.nil_append] at hc
      simp only [List.head?_cons, Option.some.injEq] at hc
      rw [← hc]
      decide
    | cons b w2' =>
      rw [List.cons_append] at hc
      simp only [List.head?_cons, Option.some.injEq] at hc
      rw [← hc]
      exact re2_not_key b (hw2 b (List.mem_cons_self _ _))
  have hskip2 : skipWs (w2 ++ '\x7d' :: '\x7d' :: rest) = '\x7d' :: '\x7d' :: rest := by
    rw [skipWs_ws_append _ _ hw2]
    exact skipWs_cons_false _ _ (by decide)
  rw [tryMatch, hskip1, htake]
  rw [if_neg (by simpa using hk)]
  rw [hskip2]
  rfl

lemma renderList_nil (vars : String → Option String) : renderList vars [] = .ok [] := by
  rw [renderList.eq_def]

lemma renderList_cons_lit (vars : String → Option String) (c : Char) (l : List Char)
    (hc : c ≠ '\x7b') :
    renderList vars (c :: l)
      = match renderList vars l with
        | .ok out => .ok (c :: out)
        | .error e => .error e := by
  rw [renderList.eq_def]
  split
  · rename_i heq
    exact absurd heq (by simp)
  · rename_i rest' heq
    injection heq with h1 h2
    exact absurd h1 hc
  · rename_i c' rest' heq
    injection heq with h1 h2
    rw [← h1, ← h2]

lemma renderList_brace_core (vars : String → Option String) (rest : List Char) :
    renderList vars ('\x7b' :: '\x7b' :: rest)
      = match tryMatch rest with
        | some (k, r) =>
          (match renderList vars r with
            | .ok out => .ok (((vars ⟨k⟩).getD "").data ++ out)
            | .error e => .error e)
        | none => .error "unsupported template action" := by
  rw [renderList.eq_def]
  split
  · rename_i heq
    exact absurd heq (by simp)
  · rename_i rest' heq
    injection heq with h1 h2
    injection h2 with h3 h4
    rw [← h4]
    cases htm : tryMatch rest with
    | none => rfl
    | some p =>
      obtain ⟨k, r⟩ := p
      rfl
  · rename_i c' rest' hno hcons
    injection hcons with h1 h2
    exact (hno rest h1.symm h2.symm).elim

lemma renderList_brace (vars : String → Option String) (rest k r : List Char)
    (h : tryMatch rest = some (k, r)) :
    renderList vars ('\x7b' :: '\x7b' :: rest)
      = match renderList vars r with
        | .ok out => .ok (((vars ⟨k⟩).getD "").data ++ out)
        | .error e => .error e := by
  rw [renderList_brace_core, h]

lemma renderList_brace_none (vars : String → Option String) (rest : List Char)
    (h : tryMatch rest = none) :
    renderList vars ('\x7b' :: '\x7b' :: rest) = .error "unsupported template action" := by
  rw [renderList_brace_core, h]

lemma renderList_lit_append (vars : String → Option String) (L rest : List Char)
    (hL : ∀ c ∈ L, c ≠ '\x7b') :
    renderList vars (L ++ rest)
      = match renderList vars rest with
        | .ok out => .ok (L ++ out)
        | .error e => .error e := by
  induction L with
  | nil =>
    rw [List.nil_append]
    cases h : renderList vars rest <;> simp [h]
  | cons c L' ih =>
    rw [List.cons_append, renderList_cons_lit vars c _ (hL c (List.mem_cons_self _ _)),
      ih (fun x hx => hL x (List.mem_cons_of_mem _ hx))]
    cases h : renderList vars rest <;> simp [h]

lemma renderList_assemble (varf : String → Option String) (segs : List Seg) (last : String)
    (hsegs : ∀ g ∈ segs, segOk g = true) (hlast : goodLit last = true) :
    renderList varf (assembleTemplate segs last).data
      = .ok ((assembleRendered varf segs last).data) := by
  induction segs with
  | nil =>
    show renderList varf last.data = .ok last.data
    have hlit : ∀ c ∈ last.data, c ≠ '\x7b' := by
      intro c hc
      rw [goodLit, List.all_eq_true] at hlast
      simpa using hlast c hc
    have h := renderList_lit_append varf last.data [] hlit
    rw [List.append_nil] at h
    rw [h, renderList_nil]
    simp
  | cons g rest ih =>
    have hg := hsegs g (List.mem_cons_self _ _)
    rw [segOk] at hg
    simp only [Bool.and_eq_true] at hg
    obtain ⟨⟨⟨hlit, hws1⟩, hkey⟩, hws2⟩ := hg
    have hlit' : ∀ c ∈ g.lit.data, c ≠ '\x7b' := by
      intro c hc
      rw [goodLit, List.all_eq_true] at hlit
      simpa using hlit c hc
    have hws1' : ∀ c ∈ g.ws1.data, isRe2Space c = true := by
      intro c hc
      rw [goodWs, List.all_eq_true] at hws1
      exact hws1 c hc
    have hws2' : ∀ c ∈ g.ws2.data, isRe2Space c = true := by
      intro c hc
      rw [goodWs, List.all_eq_true] at hws2
      exact hws2 c hc
    rw [goodKey, Bool.and_eq_true] at hkey
    have hkne : g.key.data ≠ [] := by simpa using hkey.1
    have hkey' : ∀ c ∈ g.key.data, isKeyChar c = true := by
      intro c hc
      have := hkey.2
      rw [List.all_eq_true] at this
      exact this c hc
    have hshape : (assembleTemplate (g :: rest) last).data
        = g.lit.data ++ ('\x7b' :: '\x7b' :: (g.ws1.data ++ (g.key.data ++ (g.ws2.data
            ++ '\x7d' :: '\x7d' :: (assembleTemplate rest last).data)))) := by
      show (g.lit ++ "\x7b\x7b" ++ g.ws1 ++ g.key ++ g.ws2 ++ "\x7d\x7d"
        ++ assembleTemplate rest last).data = _
      simp [String.data_append]
    rw [hshape]
    rw [renderList_lit_append _ _ _ hlit']
    rw [renderList_brace _ _ _ _
      (tryMatch_spec g.ws1.data g.key.data g.ws2.data _ hws1' hkne hkey' hws2')]
    rw [ih (fun x hx => hsegs x (List.mem_cons_of_mem _ hx))]
    show Except.ok (g.lit.data ++ (((varf g.key).getD "").data
      ++ (assembleRendered varf rest last).data)) = _
    show _ = Except.ok ((g.lit ++ (varf g.key).getD "" ++ assembleRendered varf rest last).data)
    simp [String.data_append]

/-- C4 amended: for every template assembled from brace-free literal text
and well-formed substitutions `{{ws key ws}}` (key non-empty over
`[A-Za-z0-9_.]`, optional RE2 white space inside the braces),
`RenderTemplate` succeeds and replaces each `{{key}}` with the variable
map's value for `key`, substituting the empty string for keys absent from
the map, with no error.  (A template whose braces do not all form such
substitutions may instead fail with a template-parse error — see the
counterexample.) -/
theorem renderTemplate_spec (segs : List Seg) (last : String) (vars : List (String × String))
    (hsegs : ∀ g ∈ segs, segOk g = true) (hlast : goodLit last = true) :
    RenderTemplate (assembleTemplate segs last) vars
      = .ok (assembleRendered (fun k => vars.lookup k) segs last) := by
  simp only [RenderTemplate]
  rw [renderList_assemble _ _ _ hsegs hlast]

/-- C4 counterexample: the claim quantifies over *every* template string,
but a template containing a stray `{{` (here `{{x}} {{`) makes
`RenderTemplate` return a parse error — the `{{x}}` occurrence is *not*
replaced (the rewritten text `{{ index . "x" }} {{` has an unclosed
action, so `template.Parse` fails and the function returns `("", err)`). -/
theorem renderTemplate_counterexample :
    (RenderTemplate "\x7b\x7bx\x7d\x7d \x7b\x7b" [("x", "V")]).toOption = none := by
  have h1 : tryMatch ['x', '\x7d', '\x7d', ' ', '\x7b', '\x7b']
      = some (['x'], [' ', '\x7b', '\x7b']) := by decide
  simp only [RenderTemplate]
  rw [renderList_brace _ _ _ _ h1]
  rw [show ([' ', '\x7b', '\x7b'] : List Char) = [' '] ++ '\x7b' :: '\x7b' :: [] from rfl]
  rw [renderList_lit_append _ _ _ (by decide)]
  rw [renderList_brace_none _ _ (by decide)]
  rfl

/-- C4 witness: instantiates `renderTemplate_spec` on
`a {{x }}{{y}}.` with `x ↦ V` and `y` missing from the map: `{{x }}`
renders as `V`, the missing `{{y}}` renders as the empty string. -/
theorem renderTemplate_spec_witness :
    RenderTemplate "a \x7b\x7bx \x7d\x7d\x7b\x7by\x7d\x7d." [("x", "V")] = .ok "a V." := by
  have h := renderTemplate_spec [⟨"a ", "", "x", " "⟩, ⟨"", "", "y", ""⟩] "." [("x", "V")]
    (by decide) (by decide)
  have hc : assembleTemplate [⟨"a ", "", "x", " "⟩, ⟨"", "", "y", ""⟩] "."
      = "a \x7b\x7bx \x7d\x7d\x7b\x7by\x7d\x7d." := by decide
  have hr : assembleRendered (fun k => ([("x", "V")] : List (String × String)).lookup k)
      [⟨"a ", "", "x", " "⟩, ⟨"", "", "y", ""⟩] "." = "a V." := by decide
  rw [hc] at h
  rw [h, hr]

/-- C8 witness: instantiates `emitEpilogue_spec` at a concrete write
error. -/
theorem emitEpilogue_spec_witness :
    runEmitEpilogue (some "permission denied")
      = { discardedWriteError := some "permission denied"
        , stderrLines := []
        , stdoutLines := ["\n✅ Workflows completed"]
        , exitCode := 0 } :=
  (emitEpilogue_spec (some "permission denied")).1

/-- C10 witness: instantiates `serverRun_spec` on a concrete two-line
input (one good frame, one undecodable line): two responses come back in
order and the bad line's response has a non-empty error. -/
theorem serverRun_spec_witness :
    serverRun (fun p _ _ => (p ++ "!", none))
        [.ok ⟨"1", "m", "hi", 8⟩, .bad "" "unexpected end of JSON input"]
      = [⟨"1", "hi!", ""⟩, ⟨"", "", "invalid request: unexpected end of JSON input"⟩]
    ∧ (serverRun (fun p _ _ => (p ++ "!", none))
        [.ok ⟨"1", "m", "hi", 8⟩, .bad "" "unexpected end of JSON input"]).length = 2 := by
  constructor
  · rfl
  · exact (serverRun_spec (fun p _ _ => (p ++ "!", none))
      [.ok ⟨"1", "m", "hi", 8⟩, .bad "" "unexpected end of JSON input"]).1
